import Mathlib

/-!
Verification of the codex-manager routing gateway.

This file gives a shallow embedding of the routing engine, the usage
poller, the encrypted account store and the proxy request path, translated
from the Rust sources (`src/routing/mod.rs`, `src/models/mod.rs`,
`src/usage/mod.rs`, `src/storage/mod.rs`, `src/proxy/mod.rs`), and proves
the spec's testable properties about them.

Modelling conventions:
- `f64` dollar amounts, ratios and time instants are modelled as `ℚ`;
  the code only compares, adds, divides and clamps these values, so no
  floating-point rounding enters any of the verified properties.
- `uuid::Uuid` account ids are modelled as `Nat`.
- `DashMap` concurrent maps are modelled as association lists with
  entry-level get/insert, matching the entry-at-a-time access discipline
  of the source.
- The external AES-256-GCM cipher (the `aes_gcm` crate) and the SHA-256
  hash (the `sha2` crate) are not code of this repository; they enter the
  embedding as explicit function parameters.  Everything the repository
  itself does around them (nonce concatenation, base64, length checks,
  splitting, hex truncation) is modelled concretely.
-/

/-- Look up a key in an association list (first match), like `DashMap::get`
or `HashMap::get`. -/
def assocFind {α β : Type} [DecidableEq α] : List (α × β) → α → Option β
  | [], _ => none
  | p :: rest, k => if p.1 = k then some p.2 else assocFind rest k

/-- Insert or overwrite a key in an association list, like `DashMap::insert`. -/
def assocUpsert {α β : Type} [DecidableEq α] : List (α × β) → α → β → List (α × β)
  | [], k, v => [(k, v)]
  | p :: rest, k, v => if p.1 = k then (k, v) :: rest else p :: assocUpsert rest k v

/-- Left fold that keeps the first element attaining the minimum of `f`,
the semantics of Rust `Iterator::min_by` (ties keep the earlier element). -/
def minByFirst {α : Type} (f : α → ℚ) (x : α) (xs : List α) : α :=
  xs.foldl (fun acc y => if f y < f acc then y else acc) x

/-- Left fold that keeps the last element attaining the maximum of `f`,
the semantics of Rust `Iterator::max_by_key` (ties take the later element). -/
def maxByLast {α : Type} (f : α → Int) (x : α) (xs : List α) : α :=
  xs.foldl (fun acc y => if f y < f acc then acc else y) x

/-- Boolean test that `p` is a leading run of `l`. -/
def prefixCheck : List Char → List Char → Bool
  | [], _ => true
  | _ :: _, [] => false
  | a :: as, b :: bs => a == b && prefixCheck as bs

/-- Boolean test that `sub` occurs contiguously inside `l` (substring test). -/
def subCheck (sub : List Char) : List Char → Bool
  | [] => prefixCheck sub []
  | l@(_ :: rest) => prefixCheck sub l || subCheck sub rest

/-- Lowercase hex digit for a value below 16. -/
def hexDigit (n : Nat) : Char :=
  (String.data "0123456789abcdef").getD n '0'

/-- Two lowercase hex digits of one byte. -/
def hexByte (b : Nat) : List Char :=
  [hexDigit (b / 16), hexDigit (b % 16)]

/-- Lowercase hex encoding of a byte list, as `format bytes with x` produces. -/
def hexOfBytes (bs : List Nat) : String :=
  String.mk (bs.foldr (fun b acc => hexByte b ++ acc) [])

/-- Account record (`models/mod.rs`): one upstream tenant credential. -/
structure Account where
  id : Nat
  label : String
  api_key : String
  org_id : Option String
  model_scope : List String
  daily_limit : Option ℚ
  monthly_limit : Option ℚ
  priority : Int
  enabled : Bool
  created_at : ℚ
  updated_at : ℚ
  last_used : Option ℚ
  deriving DecidableEq

/-- Usage snapshot (`models/mod.rs`): point-in-time facts for one account. -/
structure UsageSnapshot where
  account_id : Nat
  tokens_used : Nat
  cost_estimate : ℚ
  hard_limit : Option ℚ
  soft_limit : Option ℚ
  remaining_budget : Option ℚ
  daily_usage : ℚ
  monthly_usage : ℚ
  timestamp : ℚ
  deriving DecidableEq

/-- Fresh zero snapshot, `UsageSnapshot::new` (timestamp is the current time). -/
def UsageSnapshot.new (account_id : Nat) (now : ℚ) : UsageSnapshot :=
  { account_id := account_id
    tokens_used := 0
    cost_estimate := 0
    hard_limit := none
    soft_limit := none
    remaining_budget := none
    daily_usage := 0
    monthly_usage := 0
    timestamp := now }

/-- Utilization ratio, `UsageSnapshot::utilization_ratio`: monthly usage over
the hard limit, clamped to the unit interval; zero without a positive hard
limit. -/
def UsageSnapshot.utilization_ratio (u : UsageSnapshot) : ℚ :=
  match u.hard_limit with
  | some hard => if 0 < hard then max 0 (min 1 (u.monthly_usage / hard)) else 0
  | none => 0

/-- Over-limit test, `UsageSnapshot::is_over_limit`: daily usage at or past the
daily cap, monthly usage at or past the monthly cap, or non-positive remaining
budget. -/
def UsageSnapshot.is_over_limit (u : UsageSnapshot) (account : Account) : Bool :=
  (match account.daily_limit with
   | some daily => decide (daily ≤ u.daily_usage)
   | none => false) ||
  (match account.monthly_limit with
   | some monthly => decide (monthly ≤ u.monthly_usage)
   | none => false) ||
  (match u.remaining_budget with
   | some remaining => decide (remaining ≤ 0)
   | none => false)

/-- Engine-side join of an account with its snapshot (`models/mod.rs`). -/
structure AccountStatus where
  account : Account
  usage : UsageSnapshot
  is_available : Bool
  disable_reason : Option String
  deriving DecidableEq

/-- Per-request inputs to the routing engine (`models/mod.rs`). -/
structure RequestContext where
  model : String
  estimated_tokens : Option Nat
  session_id : Option String
  priority : Option Int
  deriving DecidableEq

/-- Routing strategy variants (`routing/mod.rs`). -/
inductive RoutingStrategy where
  | leastUtilized
  | roundRobin
  | priority
  | sticky
  deriving DecidableEq

/-- Human-readable reason tag carried on a decision (`routing/mod.rs`). -/
inductive RoutingReason where
  | leastUtilized
  | roundRobin (index : Nat)
  | priority (priority : Int)
  | sticky (session_id : String)
  | fallback
  | errorRecovery
  deriving DecidableEq

/-- Ephemeral per-request routing decision (`routing/mod.rs`). -/
structure RoutingDecision where
  account_id : Nat
  account_label : String
  api_key : String
  org_id : Option String
  reason : RoutingReason
  utilization_ratio : ℚ
  remaining_budget : Option ℚ
  deriving DecidableEq

/-- Circuit breaker state (`routing/mod.rs`), with `Instant` as a rational
time stamp. -/
inductive CircuitState where
  | Closed
  | Open (since : ℚ)
  | HalfOpen
  deriving DecidableEq

/-- Availability of a circuit, `CircuitState::is_available`: `Open` is
unavailable. -/
def CircuitState.is_available : CircuitState → Bool
  | CircuitState.Closed => true
  | CircuitState.Open _ => false
  | CircuitState.HalfOpen => true

/-- Attempt permission, `CircuitState::can_attempt`: an `Open` circuit permits
an attempt only once more than 60 seconds have elapsed. -/
def CircuitState.can_attempt (c : CircuitState) (now : ℚ) : Bool :=
  match c with
  | CircuitState.Closed => true
  | CircuitState.Open since => decide (60 < now - since)
  | CircuitState.HalfOpen => true

/-- Per-account routing health record (`AccountRouteState`). -/
structure AccountRouteState where
  circuit : CircuitState
  consecutive_errors : Nat
  last_used : Option ℚ
  deriving DecidableEq

/-- The default health record used by `entry().or_insert_with(..)`. -/
def defaultRouteState : AccountRouteState :=
  { circuit := CircuitState.Closed, consecutive_errors := 0, last_used := none }

/-- Health map of the engine: account id to route state. -/
abbrev Health : Type := List (Nat × AccountRouteState)

/-- Health lookup with the default record for absent entries, matching
`circuit_states.get(..)` combined with the source's `unwrap_or(true)`
defaults (an absent entry behaves as a fresh `Closed` record). -/
def lookupState (h : Health) (id : Nat) : AccountRouteState :=
  (assocFind h id).getD defaultRouteState

/-- Record `last_used` on an existing entry only, matching
`circuit_states.get_mut(..)` (absent entries are not created). -/
def touchLastUsed (h : Health) (id : Nat) (now : ℚ) : Health :=
  (h : List (Nat × AccountRouteState)).map
    (fun p => if p.1 = id then (p.1, { p.2 with last_used := some now }) else p)

/-- The routing engine state (`routing/mod.rs`). -/
structure RoutingEngine where
  strategy : RoutingStrategy
  statuses : List AccountStatus
  session_map : List (String × Nat)
  health : Health
  round_robin_index : Nat
  deriving DecidableEq

/-- Model-scope test, `RoutingEngine::supports_model`: an empty scope matches
everything; an entry ending in a star matches by prefix, any other entry by
exact string. -/
def supportsModel (account : Account) (model : String) : Bool :=
  if account.model_scope.isEmpty then
    true
  else
    account.model_scope.any (fun m =>
      if m.endsWith "*" then model.startsWith (m.dropRight 1) else m == model)

/-- Build one `AccountStatus` the way `RoutingEngine::update_accounts` does:
availability is enabled, not over-limit, and circuit-available; the disable
reason is the first failing clause in that order. -/
def mkStatus (h : Health) (account : Account) (usage : UsageSnapshot) : AccountStatus :=
  { account := account
    usage := usage
    is_available :=
      account.enabled && !(usage.is_over_limit account) &&
        (lookupState h account.id).circuit.is_available
    disable_reason :=
      if !account.enabled then some "Account disabled"
      else if usage.is_over_limit account then some "Over usage limit"
      else if !(lookupState h account.id).circuit.is_available then
        some "Circuit breaker open"
      else none }

/-- Replace the status vector, `RoutingEngine::update_accounts`: each account
is paired with its snapshot from the usage map, or a fresh zero snapshot when
absent. -/
def RoutingEngine.update_accounts (e : RoutingEngine) (accounts : List Account)
    (usage_map : List (Nat × UsageSnapshot)) (now : ℚ) : RoutingEngine :=
  { e with
    statuses := accounts.map (fun a =>
      mkStatus e.health a ((assocFind usage_map a.id).getD (UsageSnapshot.new a.id now))) }

/-- Routing failure (`anyhow::bail` in `resolve_account`). -/
inductive RouteError where
  | noAvailableAccount (model : String)
  deriving DecidableEq

/-- The candidate filter of `resolve_account`: available, model-supporting,
and attempt-permitted by the circuit breaker. -/
def resolveCandidates (e : RoutingEngine) (ctx : RequestContext) (now : ℚ) :
    List AccountStatus :=
  e.statuses.filter (fun s =>
    s.is_available && supportsModel s.account ctx.model &&
      (lookupState e.health s.account.id).circuit.can_attempt now)

/-- Utilization of a status, the ordering key of `select_least_utilized`. -/
def utilOf (s : AccountStatus) : ℚ :=
  s.usage.utilization_ratio

/-- Sticky selection, `RoutingEngine::select_sticky`: reuse a still-candidate
mapped account; otherwise select least-utilized and record the mapping; with
no session id, least-utilized without recording. -/
def selectSticky (e : RoutingEngine) (c : AccountStatus) (cs : List AccountStatus)
    (session_id : Option String) : AccountStatus × RoutingEngine :=
  match session_id with
  | some session =>
    match assocFind e.session_map session with
    | some aid =>
      match (c :: cs).find? (fun s => s.account.id == aid) with
      | some status => (status, e)
      | none =>
        let sel := minByFirst utilOf c cs
        (sel, { e with session_map := assocUpsert e.session_map session sel.account.id })
    | none =>
      let sel := minByFirst utilOf c cs
      (sel, { e with session_map := assocUpsert e.session_map session sel.account.id })
  | none => (minByFirst utilOf c cs, e)

/-- Reason builder, `RoutingEngine::build_reason`. -/
def buildReason (e : RoutingEngine) (ctx : RequestContext) (status : AccountStatus) :
    RoutingReason :=
  match e.strategy with
  | RoutingStrategy.leastUtilized => RoutingReason.leastUtilized
  | RoutingStrategy.roundRobin => RoutingReason.roundRobin e.round_robin_index
  | RoutingStrategy.priority => RoutingReason.priority status.account.priority
  | RoutingStrategy.sticky =>
    match ctx.session_id with
    | some session => RoutingReason.sticky session
    | none => RoutingReason.fallback

/-- Strategy dispatch of `resolve_account` over a non-empty candidate list
`c :: cs`, returning the selected status and the engine after any
strategy-side mutation (round-robin increment, sticky recording). -/
def pickSelected (e : RoutingEngine) (ctx : RequestContext) (c : AccountStatus)
    (cs : List AccountStatus) : AccountStatus × RoutingEngine :=
  match e.strategy with
  | RoutingStrategy.leastUtilized => (minByFirst utilOf c cs, e)
  | RoutingStrategy.roundRobin =>
    let len := cs.length + 1
    ((c :: cs).getD (e.round_robin_index % len) c,
      { e with round_robin_index := (e.round_robin_index + 1) % len })
  | RoutingStrategy.priority => (maxByLast (fun s => s.account.priority) c cs, e)
  | RoutingStrategy.sticky => selectSticky e c cs ctx.session_id

/-- Account resolution, `RoutingEngine::resolve_account`: filter candidates,
fail with `NoAvailableAccount` when none remain, otherwise select per the
active strategy, record `last_used`, and build the decision. -/
def resolve (e : RoutingEngine) (ctx : RequestContext) (now : ℚ) :
    Except RouteError (RoutingDecision × RoutingEngine) :=
  match resolveCandidates e ctx now with
  | [] => Except.error (RouteError.noAvailableAccount ctx.model)
  | c :: cs =>
    let pick : AccountStatus × RoutingEngine := pickSelected e ctx c cs
    let e2 : RoutingEngine :=
      { pick.2 with health := touchLastUsed pick.2.health pick.1.account.id now }
    Except.ok
      ({ account_id := pick.1.account.id
         account_label := pick.1.account.label
         api_key := pick.1.account.api_key
         org_id := pick.1.account.org_id
         reason := buildReason e2 ctx pick.1
         utilization_ratio := pick.1.usage.utilization_ratio
         remaining_budget := pick.1.usage.remaining_budget }, e2)

/-- Success report, `RoutingEngine::report_success`: reset the error count and
force the circuit closed (inserting a fresh entry when absent). -/
def reportSuccess (h : Health) (id : Nat) : Health :=
  assocUpsert h id
    { lookupState h id with consecutive_errors := 0, circuit := CircuitState.Closed }

/-- Error report, `RoutingEngine::report_error`: a fatal error increments the
consecutive error count and opens the circuit at the third; non-fatal errors
leave the record unchanged (the entry is still materialized, as by
`entry().or_insert_with`). -/
def reportError (h : Health) (id : Nat) (is_fatal : Bool) (now : ℚ) : Health :=
  let s := lookupState h id
  if is_fatal then
    let errors := s.consecutive_errors + 1
    assocUpsert h id
      { s with
        consecutive_errors := errors
        circuit := if 3 ≤ errors then CircuitState.Open now else s.circuit }
  else
    assocUpsert h id s

/-- Usage poller configuration (`usage/mod.rs`), intervals in whole seconds. -/
structure UsagePoller where
  min_interval : Nat
  max_interval : Nat
  deriving DecidableEq

/-- Default poller, `UsagePoller::new`: 60-second minimum, 3600-second maximum. -/
def UsagePoller.new : UsagePoller :=
  { min_interval := 60, max_interval := 3600 }

/-- Next poll interval, `UsagePoller::next_interval`: exponential backoff with
the exponent capped at five, the sum capped at the maximum interval. -/
def UsagePoller.next_interval (p : UsagePoller) (consecutive_errors : Nat) : Nat :=
  min (p.min_interval + 2 ^ (min consecutive_errors 5)) p.max_interval

/-- The standard base64 alphabet, in value order. -/
def b64Chars : List Char :=
  String.data "ABCDEFGHIJKLMNOPQRSTUVWXYZabcdefghijklmnopqrstuvwxyz0123456789+/"

/-- Character of a 6-bit value in the standard base64 alphabet. -/
def b64Char (n : Nat) : Char :=
  b64Chars.getD n 'A'

/-- Value of a base64 alphabet character. -/
def charVal (c : Char) : Option Nat :=
  b64Chars.indexOf? c

/-- Standard base64 encoding of a byte list with padding, as
`base64::engine::general_purpose::STANDARD.encode` produces. -/
def b64Encode : List Nat → List Char
  | [] => []
  | [b1] => [b64Char (b1 / 4), b64Char (b1 % 4 * 16), '=', '=']
  | [b1, b2] => [b64Char (b1 / 4), b64Char (b1 % 4 * 16 + b2 / 16), b64Char (b2 % 16 * 4), '=']
  | b1 :: b2 :: b3 :: rest =>
    b64Char (b1 / 4) :: b64Char (b1 % 4 * 16 + b2 / 16) ::
      b64Char (b2 % 16 * 4 + b3 / 64) :: b64Char (b3 % 64) :: b64Encode rest

/-- Standard base64 decoding with padding, inverse of `b64Encode`. -/
def b64Decode : List Char → Option (List Nat)
  | [] => some []
  | c1 :: c2 :: c3 :: c4 :: rest =>
    match charVal c1, charVal c2 with
    | some v1, some v2 =>
      if c3 = '=' then
        if c4 = '=' ∧ rest = [] then some [v1 * 4 + v2 / 16] else none
      else
        match charVal c3 with
        | some v3 =>
          if c4 = '=' then
            if rest = [] then some [v1 * 4 + v2 / 16, v2 % 16 * 16 + v3 / 4] else none
          else
            match charVal c4 with
            | some v4 =>
              (b64Decode rest).map (fun bs =>
                (v1 * 4 + v2 / 16) :: (v2 % 16 * 16 + v3 / 4) :: (v3 % 4 * 64 + v4) :: bs)
            | none => none
        | none => none
    | _, _ => none
  | _ => none

/-- One persisted row of the `accounts` table (`storage/mod.rs`): the
credential column holds the encrypted form. -/
structure AccountRow where
  label : String
  api_key_encrypted : String
  org_id : Option String
  model_scope : List String
  daily_limit : Option ℚ
  monthly_limit : Option ℚ
  priority : Int
  enabled : Bool
  created_at : ℚ
  updated_at : ℚ
  last_used : Option ℚ
  deriving DecidableEq

/-- The accounts table keyed by account id. -/
abbrev Store : Type := List (Nat × AccountRow)

/-- Credential encryption, `EncryptedStore::encrypt`: a fresh 12-byte nonce is
prepended to the AEAD output (ciphertext with its 16-byte tag appended, as the
`aes_gcm` crate returns it) and the whole is base64-encoded.  The cipher is
the `enc` parameter; the random nonce is the `nonce` parameter. -/
def encryptCredential (enc : List Nat → String → List Nat) (nonce : List Nat)
    (plaintext : String) : String :=
  String.mk (b64Encode (nonce ++ enc nonce plaintext))

/-- Credential decryption, `EncryptedStore::decrypt`: base64-decode, require at
least 12 bytes, split off the nonce, and decrypt the remainder with the AEAD
`dec` parameter.  Any failure is surfaced, never swallowed. -/
def decryptCredential (dec : List Nat → List Nat → Option String) (stored : String) :
    Option String :=
  match b64Decode stored.data with
  | none => none
  | some combined =>
    if combined.length < 12 then none
    else dec (combined.take 12) (combined.drop 12)

/-- Persist an account, `EncryptedStore::save_account`: an idempotent upsert
keyed by id that re-encrypts the credential. -/
def saveAccount (store : Store) (enc : List Nat → String → List Nat) (nonce : List Nat)
    (a : Account) : Store :=
  assocUpsert store a.id
    { label := a.label
      api_key_encrypted := encryptCredential enc nonce a.api_key
      org_id := a.org_id
      model_scope := a.model_scope
      daily_limit := a.daily_limit
      monthly_limit := a.monthly_limit
      priority := a.priority
      enabled := a.enabled
      created_at := a.created_at
      updated_at := a.updated_at
      last_used := a.last_used }

/-- Load an account, `EncryptedStore::load_account`: absence is `ok none`; a
record whose credential fails to decrypt is an error. -/
def loadAccount (store : Store) (dec : List Nat → List Nat → Option String) (id : Nat) :
    Except String (Option Account) :=
  match assocFind store id with
  | none => Except.ok none
  | some row =>
    match decryptCredential dec row.api_key_encrypted with
    | none => Except.error "Decryption failed"
    | some api_key =>
      Except.ok (some
        { id := id
          label := row.label
          api_key := api_key
          org_id := row.org_id
          model_scope := row.model_scope
          daily_limit := row.daily_limit
          monthly_limit := row.monthly_limit
          priority := row.priority
          enabled := row.enabled
          created_at := row.created_at
          updated_at := row.updated_at
          last_used := row.last_used })

/-- JSON values as the proxy sees request bodies (`serde_json::Value`). -/
inductive Json where
  | null
  | bool (b : Bool)
  | num (q : ℚ)
  | str (s : String)
  | arr (elems : List Json)
  | obj (fields : List (String × Json))

/-- Object field access, `Value::get(key)`. -/
def Json.getField : Json → String → Option Json
  | Json.obj fields, key => (fields.find? (fun p => p.1 == key)).map (fun p => p.2)
  | _, _ => none

/-- String extraction, `Value::as_str`. -/
def Json.asStr : Json → Option String
  | Json.str s => some s
  | _ => none

/-- Array extraction, `Value::as_array`. -/
def Json.asArr : Json → Option (List Json)
  | Json.arr elems => some elems
  | _ => none

/-- Bool extraction, `Value::as_bool`. -/
def Json.asBool : Json → Option Bool
  | Json.bool b => some b
  | _ => none

/-- The string content of the first message of the body, the nested lookup of
`extract_session_id`: `body.messages[0].content` when it is a string. -/
def firstMessageContent (body : Json) : Option String :=
  match (body.getField "messages").bind Json.asArr with
  | some msgs =>
    match msgs.head? with
    | some first_msg => (first_msg.getField "content").bind Json.asStr
    | none => none
  | none => none

/-- Session id derivation, `extract_session_id`: when the first message
content is a string, the first eight bytes of its SHA-256 digest, hex
encoded; otherwise nothing.  The digest function is the `hash` parameter. -/
def extractSessionId (hash : String → List Nat) (body : Json) : Option String :=
  (firstMessageContent body).map (fun content => hexOfBytes ((hash content).take 8))

/-- Request context construction in `handle_openai_request`: the model falls
back to a default, and the session id slot is always filled via
`unwrap_or_default`, so a missing session hash becomes the empty string. -/
def buildCtx (hash : String → List Nat) (body : Json) : RequestContext :=
  { model := ((body.getField "model").bind Json.asStr).getD "gpt-4"
    estimated_tokens := none
    session_id := some ((extractSessionId hash body).getD "")
    priority := none }

/-- Health signal the proxy feeds back to the engine after a forward. -/
inductive ReportAction where
  | success (account_id : Nat)
  | error (account_id : Nat) (is_fatal : Bool)
  deriving DecidableEq

/-- Response relay of `handle_openai_request` once an upstream response is
received: non-2xx statuses are relayed verbatim with an error report whose
fatality is `status ≥ 500`; 2xx responses report success, then a streaming
request is relayed as an event stream with status 200 and a non-streaming
body is relayed verbatim, also with status 200.  The result triple is the
client status, the client body (empty for the streamed case, whose bytes
pass through untouched), and the report sent to the engine. -/
def handleUpstreamResponse (account_id : Nat) (is_streaming : Bool) (status : Nat)
    (upstream_body : String) : Nat × String × ReportAction :=
  if ¬ (200 ≤ status ∧ status < 300) then
    (status, upstream_body, ReportAction.error account_id (decide (500 ≤ status)))
  else if is_streaming then
    (200, "", ReportAction.success account_id)
  else
    (200, upstream_body, ReportAction.success account_id)

/-- Streaming flag extraction of `handle_openai_request`. -/
def isStreamingBody (body : Json) : Bool :=
  ((body.getField "stream").bind Json.asBool).getD false

/-- Fresh engine, `RoutingEngine::new`: empty status vector, session map and
health map, round-robin index zero. -/
def RoutingEngine.new (strategy : RoutingStrategy) : RoutingEngine :=
  { strategy := strategy
    statuses := []
    session_map := []
    health := []
    round_robin_index := 0 }

/-- Comparison of optional remaining budgets, reading an absent budget as
unbounded: `a ≤ b` holds outright when `b` is absent, and otherwise requires
a present value in `a` that is at most the one in `b`. -/
def remainingBudgetLE (a b : Option ℚ) : Prop :=
  match a, b with
  | _, none => True
  | some x, some y => x ≤ y
  | none, some _ => False

/-- A minimal enabled account: unbounded limits, empty scope. -/
def testAccount (id : Nat) (priority : Int) : Account :=
  { id := id
    label := "acct"
    api_key := "sk-test"
    org_id := none
    model_scope := []
    daily_limit := none
    monthly_limit := none
    priority := priority
    enabled := true
    created_at := 0
    updated_at := 0
    last_used := none }

/-- A fresh engine refreshed once with the given accounts and no usage rows. -/
def engineWith (strategy : RoutingStrategy) (accounts : List Account) : RoutingEngine :=
  RoutingEngine.update_accounts (RoutingEngine.new strategy) accounts [] 0

/-- A plain request for the default model with no session. -/
def gptCtx : RequestContext :=
  { model := "gpt-4", estimated_tokens := none, session_id := none, priority := none }

/-- The status a fresh-engine refresh gives an account with no usage row. -/
def statusOf (a : Account) : AccountStatus :=
  mkStatus [] a (UsageSnapshot.new a.id 0)

/-- The decision resolution produces for a fresh account. -/
def decisionFor (a : Account) (reason : RoutingReason) : RoutingDecision :=
  { account_id := a.id
    account_label := a.label
    api_key := a.api_key
    org_id := a.org_id
    reason := reason
    utilization_ratio := 0
    remaining_budget := none }

/-- Toy AEAD for concrete instances: the ciphertext is the plaintext's code
points followed by a sixteen-byte all-zero tag. -/
def toyEnc (_nonce : List Nat) (plaintext : String) : List Nat :=
  plaintext.data.map Char.toNat ++ List.replicate 16 0

/-- Inverse of the toy AEAD: strip the tag and map code points back. -/
def toyDec (_nonce ct : List Nat) : Option String :=
  some (String.mk ((ct.take (ct.length - 16)).map Char.ofNat))

/-- A fixed twelve-byte nonce for concrete instances. -/
def toyNonce : List Nat :=
  List.replicate 12 0

/-- Stand-in digest for concrete instances (a fixed 32-byte value). -/
def toyHash (_s : String) : List Nat :=
  List.range 32

/-- An account whose credential holds a character outside the base64 alphabet. -/
def dashKeyAccount : Account :=
  { testAccount 8 0 with api_key := "sk-alpha" }

/-- An account with an empty credential string. -/
def emptyKeyAccount : Account :=
  { testAccount 7 0 with api_key := "" }

/-- An account with a zero daily cap. -/
def zeroCapAccount : Account :=
  { testAccount 3 0 with daily_limit := some 0 }

/-- An account with a ten-dollar daily cap. -/
def capAccount : Account :=
  { testAccount 5 0 with daily_limit := some 10 }

/-- A snapshot with only daily usage set. -/
def snapDaily (d : ℚ) : UsageSnapshot :=
  { UsageSnapshot.new 5 0 with daily_usage := d }

/-- A request body with a string first-message content. -/
def msgBody : Json :=
  Json.obj [("messages", Json.arr [Json.obj [("content", Json.str "hello")]])]

/-- A request body with no messages at all. -/
def emptyBody : Json :=
  Json.obj []

/-- A sticky-strategy engine holding one fresh account. -/
def stickyEngine : RoutingEngine :=
  engineWith RoutingStrategy.sticky [testAccount 1 0]

/-- Looking up the just-upserted key returns the new value. -/
theorem assocFind_upsert_self {α β : Type} [DecidableEq α]
    (l : List (α × β)) (k : α) (v : β) : assocFind (assocUpsert l k v) k = some v := by
  induction l with
  | nil => simp [assocUpsert, assocFind]
  | cons p rest ih =>
    by_cases h : p.1 = k
    · simp [assocUpsert, assocFind, h]
    · simp [assocUpsert, assocFind, h, ih]

/-- Upserting one key leaves lookups of other keys unchanged. -/
theorem assocFind_upsert_ne {α β : Type} [DecidableEq α]
    (l : List (α × β)) (k k' : α) (v : β) (hne : k' ≠ k) :
    assocFind (assocUpsert l k v) k' = assocFind l k' := by
  induction l with
  | nil => simp [assocUpsert, assocFind, Ne.symm hne]
  | cons p rest ih =>
    by_cases h : p.1 = k
    · simp [assocUpsert, assocFind, h, Ne.symm hne, hne]
    · by_cases h' : p.1 = k'
      · simp [assocUpsert, assocFind, h, h', hne]
      · simp [assocUpsert, assocFind, h, h', ih]

/-- The min-keeping fold yields a value no larger than the accumulator's. -/
theorem foldlMin_le_init {α : Type} (f : α → ℚ) (ys : List α) (acc : α) :
    f (ys.foldl (fun a y => if f y < f a then y else a) acc) ≤ f acc := by
  induction ys generalizing acc with
  | nil => simp
  | cons z zs ih =>
    simp only [List.foldl_cons]
    refine le_trans (ih _) ?_
    by_cases h : f z < f acc
    · simp [h, le_of_lt h]
    · simp [h]

/-- The min-keeping fold yields a value no larger than any list element's. -/
theorem foldlMin_le_mem {α : Type} (f : α → ℚ) (ys : List α) (acc : α)
    (y : α) (hy : y ∈ ys) :
    f (ys.foldl (fun a y => if f y < f a then y else a) acc) ≤ f y := by
  induction ys generalizing acc with
  | nil => cases hy
  | cons z zs ih =>
    simp only [List.foldl_cons]
    rcases List.mem_cons.mp hy with rfl | hmem
    · refine le_trans (foldlMin_le_init f zs _) ?_
      by_cases h : f y < f acc
      · simp [h]
      · simp [h]
        exact le_of_not_lt h
    · exact ih _ hmem

/-- A min-keeping fold whose value matches the accumulator's returns the
accumulator itself (ties keep the earlier element). -/
theorem foldlMin_eq_init {α : Type} (f : α → ℚ) (ys : List α) (acc : α)
    (h : f (ys.foldl (fun a y => if f y < f a then y else a) acc) = f acc) :
    ys.foldl (fun a y => if f y < f a then y else a) acc = acc := by
  induction ys generalizing acc with
  | nil => rfl
  | cons z zs ih =>
    simp only [List.foldl_cons] at h ⊢
    by_cases hz : f z < f acc
    · exfalso
      have := foldlMin_le_init f zs (if f z < f acc then z else acc)
      rw [if_pos hz] at this
      rw [if_pos hz] at h
      exact absurd (h ▸ this) (not_le_of_lt hz)
    · rw [if_neg hz] at h ⊢
      exact ih _ h

/-- The min-keeping fold is the accumulator or a list element. -/
theorem foldlMin_mem {α : Type} (f : α → ℚ) (ys : List α) (acc : α) :
    ys.foldl (fun a y => if f y < f a then y else a) acc ∈ acc :: ys := by
  induction ys generalizing acc with
  | nil => simp
  | cons z zs ih =>
    simp only [List.foldl_cons]
    by_cases h : f z < f acc
    · rw [if_pos h]
      exact List.mem_cons_of_mem _ (ih z)
    · rw [if_neg h]
      rcases List.mem_cons.mp (ih acc) with heq | hmem
      · rw [heq]; simp
      · simp [hmem]

/-- When the min-keeping fold strictly improves on the accumulator, its result
is the first list element attaining the fold's value. -/
theorem foldlMin_find {α : Type} (f : α → ℚ) (ys : List α) (acc : α)
    (h : f (ys.foldl (fun a y => if f y < f a then y else a) acc) < f acc) :
    ys.find? (fun y =>
        f y == f (ys.foldl (fun a y => if f y < f a then y else a) acc)) =
      some (ys.foldl (fun a y => if f y < f a then y else a) acc) := by
  induction ys generalizing acc with
  | nil => exact absurd h (lt_irrefl _)
  | cons z zs ih =>
    simp only [List.foldl_cons] at h ⊢
    by_cases hz : f z < f acc
    · rw [if_pos hz] at h ⊢
      by_cases he : f (zs.foldl (fun a y => if f y < f a then y else a) z) = f z
      · have hzz := foldlMin_eq_init f zs z he
        rw [hzz]
        exact List.find?_cons_of_pos _ (by simp)
      · have hlt : f (zs.foldl (fun a y => if f y < f a then y else a) z) < f z :=
          lt_of_le_of_ne (foldlMin_le_init f zs z) he
        rw [List.find?_cons_of_neg _ (by simp; exact fun hx => absurd hx.symm he)]
        exact ih z hlt
    · rw [if_neg hz] at h ⊢
      have hle : f acc ≤ f z := le_of_not_lt hz
      have hne : ¬ (f z = f (zs.foldl (fun a y => if f y < f a then y else a) acc)) := by
        intro hx
        exact absurd (hx ▸ lt_of_lt_of_le h hle) (lt_irrefl _)
      rw [List.find?_cons_of_neg _ (by simp [hne])]
      exact ih acc h

/-- The member of `x :: xs` selected by `minByFirst`. -/
theorem minByFirst_mem {α : Type} (f : α → ℚ) (x : α) (xs : List α) :
    minByFirst f x xs ∈ x :: xs :=
  foldlMin_mem f xs x

/-- Minimality of `minByFirst` over `x :: xs`. -/
theorem minByFirst_le {α : Type} (f : α → ℚ) (x : α) (xs : List α) :
    ∀ y ∈ x :: xs, f (minByFirst f x xs) ≤ f y := by
  intro y hy
  rcases List.mem_cons.mp hy with rfl | hmem
  · exact foldlMin_le_init f xs y
  · exact foldlMin_le_mem f xs x y hmem

/-- The element selected by `minByFirst` is the first of `x :: xs` attaining
its value: ties go to iteration order. -/
theorem minByFirst_find {α : Type} (f : α → ℚ) (x : α) (xs : List α) :
    (x :: xs).find? (fun y => f y == f (minByFirst f x xs)) =
      some (minByFirst f x xs) := by
  by_cases he : f (minByFirst f x xs) = f x
  · have hx := foldlMin_eq_init f xs x he
    unfold minByFirst at hx ⊢
    rw [hx]
    exact List.find?_cons_of_pos _ (by simp)
  · have hlt : f (minByFirst f x xs) < f x :=
      lt_of_le_of_ne (foldlMin_le_init f xs x) he
    rw [List.find?_cons_of_neg _ (by simp; exact fun hx => absurd hx.symm he)]
    exact foldlMin_find f xs x hlt

/-- The max-keeping fold is the accumulator or a list element. -/
theorem foldlMax_mem {α : Type} (f : α → Int) (ys : List α) (acc : α) :
    ys.foldl (fun a y => if f y < f a then a else y) acc ∈ acc :: ys := by
  induction ys generalizing acc with
  | nil => simp
  | cons z zs ih =>
    simp only [List.foldl_cons]
    by_cases h : f z < f acc
    · rw [if_pos h]
      rcases List.mem_cons.mp (ih acc) with heq | hmem
      · rw [heq]; simp
      · simp [hmem]
    · rw [if_neg h]
      exact List.mem_cons_of_mem _ (ih z)

/-- The max-keeping fold yields a value at least the accumulator's. -/
theorem foldlMax_ge_init {α : Type} (f : α → Int) (ys : List α) (acc : α) :
    f acc ≤ f (ys.foldl (fun a y => if f y < f a then a else y) acc) := by
  induction ys generalizing acc with
  | nil => simp
  | cons z zs ih =>
    simp only [List.foldl_cons]
    refine le_trans ?_ (ih _)
    by_cases h : f z < f acc
    · simp [h]
    · simp [h]
      exact le_of_not_lt h

/-- The max-keeping fold yields a value at least any list element's. -/
theorem foldlMax_ge_mem {α : Type} (f : α → Int) (ys : List α) (acc : α)
    (y : α) (hy : y ∈ ys) :
    f y ≤ f (ys.foldl (fun a y => if f y < f a then a else y) acc) := by
  induction ys generalizing acc with
  | nil => cases hy
  | cons z zs ih =>
    simp only [List.foldl_cons]
    rcases List.mem_cons.mp hy with rfl | hmem
    · refine le_trans ?_ (foldlMax_ge_init f zs _)
      by_cases h : f y < f acc
      · simp [h]
        exact le_of_lt h
      · simp [h]
    · exact ih _ hmem

/-- The member of `x :: xs` selected by `maxByLast`. -/
theorem maxByLast_mem {α : Type} (f : α → Int) (x : α) (xs : List α) :
    maxByLast f x xs ∈ x :: xs :=
  foldlMax_mem f xs x

/-- Maximality of `maxByLast` over `x :: xs`. -/
theorem maxByLast_ge {α : Type} (f : α → Int) (x : α) (xs : List α) :
    ∀ y ∈ x :: xs, f y ≤ f (maxByLast f x xs) := by
  intro y hy
  rcases List.mem_cons.mp hy with rfl | hmem
  · exact foldlMax_ge_init f xs y
  · exact foldlMax_ge_mem f xs x y hmem

/-- Unfolding `maxByLast` over a list extended on the right. -/
theorem maxByLast_concat {α : Type} (f : α → Int) (x : α) (xs : List α) (z : α) :
    maxByLast f x (xs ++ [z]) =
      if f z < f (maxByLast f x xs) then maxByLast f x xs else z := by
  simp [maxByLast, List.foldl_append]

/-- The element selected by `maxByLast` is the last of `x :: xs` attaining its
value: the first match when scanning from the right. -/
theorem maxByLast_rev_find {α : Type} (f : α → Int) (x : α) (xs : List α) :
    ((x :: xs).reverse).find? (fun y => f y == f (maxByLast f x xs)) =
      some (maxByLast f x xs) := by
  induction xs using List.reverseRecOn with
  | nil => simp [maxByLast]
  | append_singleton zs z ih =>
    have hrev : (x :: (zs ++ [z])).reverse = z :: (x :: zs).reverse := by
      rw [show x :: (zs ++ [z]) = (x :: zs) ++ [z] by simp]
      simp
    rw [hrev, maxByLast_concat]
    by_cases h : f z < f (maxByLast f x zs)
    · rw [if_pos h]
      rw [List.find?_cons_of_neg _ (by simp; exact ne_of_lt h)]
      exact ih
    · rw [if_neg h]
      exact List.find?_cons_of_pos _ (by simp)

/-- Soundness of `prefixCheck`. -/
theorem prefixCheck_sound : ∀ (p l : List Char), prefixCheck p l = true →
    ∃ rest, l = p ++ rest := by
  intro p
  induction p with
  | nil => intro l _; exact ⟨l, rfl⟩
  | cons a as ih =>
    intro l h
    cases l with
    | nil => simp [prefixCheck] at h
    | cons b bs =>
      simp only [prefixCheck, Bool.and_eq_true, beq_iff_eq] at h
      obtain ⟨rest, hrest⟩ := ih bs h.2
      exact ⟨rest, by simp [h.1, hrest]⟩

/-- Soundness of `subCheck`: a succeeding substring test gives a decomposition. -/
theorem subCheck_sound : ∀ (l sub : List Char), subCheck sub l = true →
    ∃ pre post, l = pre ++ sub ++ post := by
  intro l
  induction l with
  | nil =>
    intro sub h
    simp only [subCheck] at h
    obtain ⟨rest, hrest⟩ := prefixCheck_sound sub [] h
    rcases List.append_eq_nil.mp hrest.symm with ⟨h1, h2⟩
    exact ⟨[], [], by simp [h1]⟩
  | cons x rest ih =>
    intro sub h
    simp only [subCheck, Bool.or_eq_true] at h
    rcases h with h | h
    · obtain ⟨post, hpost⟩ := prefixCheck_sound sub (x :: rest) h
      exact ⟨[], post, by simp [hpost]⟩
    · obtain ⟨pre, post, hdec⟩ := ih sub h
      exact ⟨x :: pre, post, by simp [hdec]⟩

/-- A string holding a character outside an alphabet cannot occur inside a
string drawn entirely from that alphabet. -/
theorem subCheck_eq_false (sub l : List Char) (allowed : List Char) (c : Char)
    (hc : c ∈ sub) (hout : c ∉ allowed) (hl : ∀ x ∈ l, x ∈ allowed) :
    subCheck sub l = false := by
  cases h : subCheck sub l with
  | false => rfl
  | true =>
    exfalso
    obtain ⟨pre, post, hdec⟩ := subCheck_sound l sub h
    refine hout (hl c ?_)
    rw [hdec]
    simp [hc]

/-- Alphabet characters decode back to their values. -/
theorem charVal_b64Char : ∀ v : Nat, v < 64 → charVal (b64Char v) = some v := by
  decide

/-- Alphabet characters are never the padding character. -/
theorem b64Char_ne_pad : ∀ v : Nat, v < 64 → b64Char v ≠ '=' := by
  decide

/-- Every character an alphabet index maps to lies in the alphabet. -/
theorem b64Char_mem : ∀ n : Nat, b64Char n ∈ b64Chars := by
  intro n
  unfold b64Char
  rcases Nat.lt_or_ge n b64Chars.length with h | h
  · rw [List.getD_eq_getElem?_getD, List.getElem?_eq_getElem h]
    exact List.getElem_mem h
  · rw [List.getD_eq_getElem?_getD, List.getElem?_eq_none h]
    decide

/-- Base64 output draws only on the alphabet plus the padding character. -/
theorem b64Encode_chars (bs : List Nat) :
    ∀ c ∈ b64Encode bs, c ∈ '=' :: b64Chars := by
  induction bs using b64Encode.induct with
  | case1 => simp [b64Encode]
  | case2 b1 =>
    intro c hc
    simp only [b64Encode, List.mem_cons, List.not_mem_nil, or_false] at hc
    rcases hc with rfl | rfl | rfl | rfl <;> simp [b64Char_mem]
  | case3 b1 b2 =>
    intro c hc
    simp only [b64Encode, List.mem_cons, List.not_mem_nil, or_false] at hc
    rcases hc with rfl | rfl | rfl | rfl <;> simp [b64Char_mem]
  | case4 b1 b2 b3 rest ih =>
    intro c hc
    simp only [b64Encode, List.mem_cons] at hc
    rcases hc with rfl | rfl | rfl | rfl | h
    · simp [b64Char_mem]
    · simp [b64Char_mem]
    · simp [b64Char_mem]
    · simp [b64Char_mem]
    · exact ih c h

/-- Base64 decoding inverts encoding on byte lists. -/
theorem b64_roundtrip : ∀ (bs : List Nat), (∀ b ∈ bs, b < 256) →
    b64Decode (b64Encode bs) = some bs := by
  intro bs
  induction bs using b64Encode.induct with
  | case1 => intro _; simp [b64Encode, b64Decode]
  | case2 b1 =>
    intro hb
    have h1 : b1 < 256 := hb b1 (by simp)
    have e1 := charVal_b64Char (b1 / 4) (by omega)
    have e2 := charVal_b64Char (b1 % 4 * 16) (by omega)
    simp [b64Encode, b64Decode, e1, e2]
    omega
  | case3 b1 b2 =>
    intro hb
    have h1 : b1 < 256 := hb b1 (by simp)
    have h2 : b2 < 256 := hb b2 (by simp)
    have e1 := charVal_b64Char (b1 / 4) (by omega)
    have e2 := charVal_b64Char (b1 % 4 * 16 + b2 / 16) (by omega)
    have e3 := charVal_b64Char (b2 % 16 * 4) (by omega)
    have n3 := b64Char_ne_pad (b2 % 16 * 4) (by omega)
    simp [b64Encode, b64Decode, e1, e2, e3, n3]
    omega
  | case4 b1 b2 b3 rest ih =>
    intro hb
    have h1 : b1 < 256 := hb b1 (by simp)
    have h2 : b2 < 256 := hb b2 (by simp)
    have h3 : b3 < 256 := hb b3 (by simp)
    have hrest : ∀ b ∈ rest, b < 256 := fun b hb' => hb b (by simp [hb'])
    have e1 := charVal_b64Char (b1 / 4) (by omega)
    have e2 := charVal_b64Char (b1 % 4 * 16 + b2 / 16) (by omega)
    have e3 := charVal_b64Char (b2 % 16 * 4 + b3 / 64) (by omega)
    have e4 := charVal_b64Char (b3 % 64) (by omega)
    have n3 := b64Char_ne_pad (b2 % 16 * 4 + b3 / 64) (by omega)
    have n4 := b64Char_ne_pad (b3 % 64) (by omega)
    simp [b64Encode, b64Decode, e1, e2, e3, e4, n3, n4, ih hrest]
    omega

/-- Whatever sticky selection returns is one of the candidates. -/
theorem selectSticky_fst_mem (e : RoutingEngine) (c : AccountStatus)
    (cs : List AccountStatus) (sid : Option String) :
    (selectSticky e c cs sid).1 ∈ c :: cs := by
  cases sid with
  | none => simp only [selectSticky]; exact minByFirst_mem utilOf c cs
  | some session =>
    simp only [selectSticky]
    cases hm : assocFind e.session_map session with
    | none => simp only []; exact minByFirst_mem utilOf c cs
    | some aid =>
      cases hf : (c :: cs).find? (fun s => s.account.id == aid) with
      | none =>
        simp only []
        rw [hf]
        exact minByFirst_mem utilOf c cs
      | some status =>
        simp only []
        rw [hf]
        exact List.mem_of_find?_eq_some hf

/-- Indexing with a fallback yields a list element or the fallback. -/
theorem getD_mem_or {α : Type} (l : List α) (n : Nat) (d : α) :
    l.getD n d ∈ l ∨ l.getD n d = d := by
  induction l generalizing n with
  | nil => right; rfl
  | cons a as ih =>
    cases n with
    | zero => left; simp
    | succ m =>
      rcases ih m with h | h
      · left; simp only [List.getD_cons_succ]; exact List.mem_cons_of_mem _ h
      · right; simpa using h

/-- Whatever the strategy dispatch selects is one of the candidates. -/
theorem pickSelected_fst_mem (e : RoutingEngine) (ctx : RequestContext)
    (c : AccountStatus) (cs : List AccountStatus) :
    (pickSelected e ctx c cs).1 ∈ c :: cs := by
  cases hs : e.strategy with
  | leastUtilized => simp only [pickSelected, hs]; exact minByFirst_mem utilOf c cs
  | roundRobin =>
    simp only [pickSelected, hs]
    rcases getD_mem_or (c :: cs) (e.round_robin_index % (cs.length + 1)) c with h | h
    · exact h
    · rw [h]; simp
  | priority =>
    simp only [pickSelected, hs]
    exact maxByLast_mem (fun s => s.account.priority) c cs
  | sticky => simp only [pickSelected, hs]; exact selectSticky_fst_mem e c cs ctx.session_id

/-- A successful resolution selects one of the filtered candidates and
copies its account id, utilization ratio and remaining budget onto the
decision. -/
theorem resolve_ok_selected (e : RoutingEngine) (ctx : RequestContext) (now : ℚ)
    (d : RoutingDecision) (e2 : RoutingEngine)
    (hr : resolve e ctx now = Except.ok (d, e2)) :
    ∃ s ∈ resolveCandidates e ctx now,
      d.account_id = s.account.id ∧
      d.utilization_ratio = s.usage.utilization_ratio ∧
      d.remaining_budget = s.usage.remaining_budget := by
  cases hc : resolveCandidates e ctx now with
  | nil =>
    unfold resolve at hr
    rw [hc] at hr
    simp at hr
  | cons c cs =>
    unfold resolve at hr
    rw [hc] at hr
    simp only [] at hr
    injection hr with hpair
    have h1 := congrArg Prod.fst hpair
    simp only [] at h1
    refine ⟨(pickSelected e ctx c cs).1, ?_, ?_, ?_, ?_⟩
    · exact pickSelected_fst_mem e ctx c cs
    · rw [← h1]
    · rw [← h1]
    · rw [← h1]

/-- State lookup after an upsert of the same id. -/
theorem lookupState_upsert_self (h : Health) (id : Nat) (s : AccountRouteState) :
    lookupState (assocUpsert h id s) id = s := by
  simp [lookupState, assocFind_upsert_self]

/-- A fatal error report increments the consecutive error count. -/
theorem reportError_fatal_errors (h : Health) (id : Nat) (t : ℚ) :
    (lookupState (reportError h id true t) id).consecutive_errors =
      (lookupState h id).consecutive_errors + 1 := by
  simp [reportError, lookupState_upsert_self]

/-- A fatal error report opens the circuit exactly when the new count has
reached three. -/
theorem reportError_fatal_circuit (h : Health) (id : Nat) (t : ℚ) :
    (lookupState (reportError h id true t) id).circuit =
      (if 3 ≤ (lookupState h id).consecutive_errors + 1
        then CircuitState.Open t else (lookupState h id).circuit) := by
  simp [reportError, lookupState_upsert_self]

/-- A success report zeroes the error count. -/
theorem reportSuccess_errors (h : Health) (id : Nat) :
    (lookupState (reportSuccess h id) id).consecutive_errors = 0 := by
  simp [reportSuccess, lookupState_upsert_self]

/-- A success report closes the circuit. -/
theorem reportSuccess_circuit (h : Health) (id : Nat) :
    (lookupState (reportSuccess h id) id).circuit = CircuitState.Closed := by
  simp [reportSuccess, lookupState_upsert_self]

/-- Unpacking candidate membership: a candidate is a status from the engine's
vector that is available, supports the model, and whose circuit permits an
attempt now. -/
theorem mem_resolveCandidates (e : RoutingEngine) (ctx : RequestContext) (now : ℚ)
    (s : AccountStatus) (hs : s ∈ resolveCandidates e ctx now) :
    s ∈ e.statuses ∧ s.is_available = true ∧
      supportsModel s.account ctx.model = true ∧
      (lookupState e.health s.account.id).circuit.can_attempt now = true := by
  obtain ⟨h1, h2⟩ := List.mem_filter.mp hs
  simp only [Bool.and_eq_true] at h2
  exact ⟨h1, h2.1.1, h2.1.2, h2.2⟩

/-- An available built status comes from an enabled, in-limit account. -/
theorem mkStatus_available (h : Health) (account : Account) (usage : UsageSnapshot)
    (ha : (mkStatus h account usage).is_available = true) :
    account.enabled = true ∧ usage.is_over_limit account = false ∧
      (lookupState h account.id).circuit.is_available = true := by
  simp only [mkStatus, Bool.and_eq_true, Bool.not_eq_true'] at ha
  exact ⟨ha.1.1, ha.1.2, ha.2⟩

/-- An attempt-permitting circuit is never open without elapsed cooldown. -/
theorem can_attempt_open (c : CircuitState) (now : ℚ)
    (h : c.can_attempt now = true) :
    ∀ t, c = CircuitState.Open t → 60 < now - t := by
  intro t ht
  subst ht
  simpa [CircuitState.can_attempt] using h

/-- C1: for every request context, over any status vector produced by
`update_accounts`, `resolve_account` never returns a decision whose account is
disabled, over-limit, or whose circuit is `Open` without elapsed cooldown; and
when the filtered candidate set is empty it fails with `NoAvailableAccount`
for the requested model. -/
theorem c1_availability_filter (e : RoutingEngine) (accounts : List Account)
    (usage_map : List (Nat × UsageSnapshot)) (h0 : Health) (tU now : ℚ)
    (ctx : RequestContext)
    (hst : e.statuses = accounts.map (fun a =>
      mkStatus h0 a ((assocFind usage_map a.id).getD (UsageSnapshot.new a.id tU)))) :
    (resolveCandidates e ctx now = [] →
      resolve e ctx now = Except.error (RouteError.noAvailableAccount ctx.model)) ∧
    (∀ (d : RoutingDecision) (e2 : RoutingEngine),
      resolve e ctx now = Except.ok (d, e2) →
      ∃ s, s ∈ e.statuses ∧ d.account_id = s.account.id ∧
        s.account.enabled = true ∧
        s.usage.is_over_limit s.account = false ∧
        (∀ t, (lookupState e.health s.account.id).circuit = CircuitState.Open t →
          60 < now - t)) := by
  constructor
  · intro hc
    unfold resolve
    rw [hc]
  · intro d e2 hr
    obtain ⟨s, hmem, hid, _, _⟩ := resolve_ok_selected e ctx now d e2 hr
    obtain ⟨hstat, hav, _, hatt⟩ := mem_resolveCandidates e ctx now s hmem
    have hstat2 := hstat
    rw [hst] at hstat2
    obtain ⟨a, _, hs_eq⟩ := List.mem_map.mp hstat2
    refine ⟨s, hstat, hid, ?_, ?_, can_attempt_open _ now hatt⟩
    · rw [← hs_eq] at hav ⊢
      exact (mkStatus_available _ _ _ hav).1
    · rw [← hs_eq] at hav ⊢
      have h := mkStatus_available _ _ _ hav
      exact h.2.1

/-- Witness for C1 at a one-account engine: the resolution at time 100
selects an enabled, in-limit account with no open circuit. -/
theorem c1_availability_filter_witness :
    ∃ s, s ∈ (engineWith RoutingStrategy.leastUtilized [testAccount 1 0]).statuses ∧
      (decisionFor (testAccount 1 0) RoutingReason.leastUtilized).account_id = s.account.id ∧
      s.account.enabled = true ∧
      s.usage.is_over_limit s.account = false ∧
      (∀ t, (lookupState (engineWith RoutingStrategy.leastUtilized [testAccount 1 0]).health
          s.account.id).circuit = CircuitState.Open t → 60 < (100 : ℚ) - t) :=
  (c1_availability_filter (engineWith RoutingStrategy.leastUtilized [testAccount 1 0])
    [testAccount 1 0] [] [] 0 100 gptCtx rfl).2
    (decisionFor (testAccount 1 0) RoutingReason.leastUtilized)
    (engineWith RoutingStrategy.leastUtilized [testAccount 1 0]) rfl

/-- C2: three consecutive fatal error reports with no intervening success open
the circuit at the third report's time; while at most 60 seconds have elapsed
the account cannot be selected by any resolution; once more than 60 seconds
have elapsed a new attempt is permitted; and a success report resets the
error count to zero and closes the circuit. -/
theorem c2_circuit_breaker (h : Health) (id : Nat) (t1 t2 t3 : ℚ) :
    (lookupState (reportError (reportError (reportError h id true t1) id true t2)
        id true t3) id).circuit = CircuitState.Open t3 ∧
    (∀ (e : RoutingEngine) (ctx : RequestContext) (now : ℚ)
        (d : RoutingDecision) (e2 : RoutingEngine),
      e.health = reportError (reportError (reportError h id true t1) id true t2) id true t3 →
      now - t3 ≤ 60 →
      resolve e ctx now = Except.ok (d, e2) →
      d.account_id ≠ id) ∧
    (∀ now : ℚ, 60 < now - t3 →
      (lookupState (reportError (reportError (reportError h id true t1) id true t2)
        id true t3) id).circuit.can_attempt now = true) ∧
    (lookupState (reportSuccess (reportError (reportError (reportError h id true t1)
        id true t2) id true t3) id) id).consecutive_errors = 0 ∧
    (lookupState (reportSuccess (reportError (reportError (reportError h id true t1)
        id true t2) id true t3) id) id).circuit = CircuitState.Closed := by
  have hopen : (lookupState (reportError (reportError (reportError h id true t1)
      id true t2) id true t3) id).circuit = CircuitState.Open t3 := by
    rw [reportError_fatal_circuit]
    rw [reportError_fatal_errors, reportError_fatal_errors]
    rw [if_pos (by omega)]
  refine ⟨hopen, ?_, ?_, reportSuccess_errors _ _, reportSuccess_circuit _ _⟩
  · intro e ctx now d e2 hh hle hr heq
    obtain ⟨s, hmem, hid, _, _⟩ := resolve_ok_selected e ctx now d e2 hr
    obtain ⟨_, _, _, hatt⟩ := mem_resolveCandidates e ctx now s hmem
    rw [hh] at hatt
    have hsid : s.account.id = id := by rw [← hid, heq]
    rw [hsid] at hatt
    have := can_attempt_open _ now hatt t3 hopen
    linarith
  · intro now hnow
    rw [hopen]
    simp [CircuitState.can_attempt, hnow]

/-- Witness for C2 at the empty health map, account 1, all reports at time 0:
the circuit is open at time 0, a new attempt is allowed at time 61, and a
success report resets the record. -/
theorem c2_circuit_breaker_witness :
    (lookupState (reportError (reportError (reportError [] 1 true 0) 1 true 0)
        1 true 0) 1).circuit = CircuitState.Open 0 ∧
    (lookupState (reportError (reportError (reportError [] 1 true 0) 1 true 0)
        1 true 0) 1).circuit.can_attempt 61 = true ∧
    (lookupState (reportSuccess (reportError (reportError (reportError [] 1 true 0)
        1 true 0) 1 true 0) 1) 1).consecutive_errors = 0 ∧
    (lookupState (reportSuccess (reportError (reportError (reportError [] 1 true 0)
        1 true 0) 1 true 0) 1) 1).circuit = CircuitState.Closed :=
  ⟨(c2_circuit_breaker [] 1 0 0 0).1,
   (c2_circuit_breaker [] 1 0 0 0).2.2.1 61 (by norm_num),
   (c2_circuit_breaker [] 1 0 0 0).2.2.2.1,
   (c2_circuit_breaker [] 1 0 0 0).2.2.2.2⟩

/-- C4: under the LeastUtilized strategy, a successful resolution over the
candidates `c :: cs` yields a decision whose utilization ratio is a lower
bound of every candidate's ratio, and the selected account is the first
candidate in iteration order attaining that ratio. -/
theorem c4_least_utilized (e : RoutingEngine) (ctx : RequestContext) (now : ℚ)
    (c : AccountStatus) (cs : List AccountStatus) (d : RoutingDecision)
    (e2 : RoutingEngine)
    (hs : e.strategy = RoutingStrategy.leastUtilized)
    (hc : resolveCandidates e ctx now = c :: cs)
    (hr : resolve e ctx now = Except.ok (d, e2)) :
    (∀ s ∈ c :: cs, d.utilization_ratio ≤ s.usage.utilization_ratio) ∧
    (∃ sel, (c :: cs).find?
        (fun s => s.usage.utilization_ratio == d.utilization_ratio) = some sel ∧
      d.account_id = sel.account.id ∧
      d.utilization_ratio = sel.usage.utilization_ratio) := by
  unfold resolve at hr
  rw [hc] at hr
  simp only [pickSelected, hs] at hr
  injection hr with hpair
  have h1 := congrArg Prod.fst hpair
  simp only [] at h1
  have hdu : d.utilization_ratio = utilOf (minByFirst utilOf c cs) := by
    rw [← h1]
    rfl
  constructor
  · intro s hsmem
    rw [hdu]
    exact minByFirst_le utilOf c cs s hsmem
  · refine ⟨minByFirst utilOf c cs, ?_, ?_, ?_⟩
    · have hfun : (fun s : AccountStatus => s.usage.utilization_ratio == d.utilization_ratio)
          = (fun y => utilOf y == utilOf (minByFirst utilOf c cs)) := by
        funext y
        rw [hdu]
        rfl
      rw [hfun]
      exact minByFirst_find utilOf c cs
    · rw [← h1]
    · exact hdu

/-- Witness for C4 at two fresh accounts tying at ratio zero: the decision's
ratio bounds both candidates and the first tying candidate is selected. -/
theorem c4_least_utilized_witness :
    (∀ s ∈ [statusOf (testAccount 1 0), statusOf (testAccount 2 0)],
      (decisionFor (testAccount 1 0) RoutingReason.leastUtilized).utilization_ratio ≤
        s.usage.utilization_ratio) ∧
    (∃ sel, [statusOf (testAccount 1 0), statusOf (testAccount 2 0)].find?
        (fun s => s.usage.utilization_ratio ==
          (decisionFor (testAccount 1 0) RoutingReason.leastUtilized).utilization_ratio) =
          some sel ∧
      (decisionFor (testAccount 1 0) RoutingReason.leastUtilized).account_id = sel.account.id ∧
      (decisionFor (testAccount 1 0) RoutingReason.leastUtilized).utilization_ratio =
        sel.usage.utilization_ratio) :=
  c4_least_utilized
    (engineWith RoutingStrategy.leastUtilized [testAccount 1 0, testAccount 2 0])
    gptCtx 0 (statusOf (testAccount 1 0)) [statusOf (testAccount 2 0)]
    (decisionFor (testAccount 1 0) RoutingReason.leastUtilized)
    (engineWith RoutingStrategy.leastUtilized [testAccount 1 0, testAccount 2 0])
    rfl rfl rfl

/-- C6 (amended): under the Priority strategy, a successful resolution over
the candidates `c :: cs` selects a candidate of greatest priority, and on ties
the one last in iteration order is selected — the first match when scanning
the candidates from the right, per the Rust `max_by_key` tie rule. -/
theorem c6_priority_selection (e : RoutingEngine) (ctx : RequestContext) (now : ℚ)
    (c : AccountStatus) (cs : List AccountStatus) (d : RoutingDecision)
    (e2 : RoutingEngine)
    (hs : e.strategy = RoutingStrategy.priority)
    (hc : resolveCandidates e ctx now = c :: cs)
    (hr : resolve e ctx now = Except.ok (d, e2)) :
    ∃ sel, ((c :: cs).reverse).find?
        (fun s => s.account.priority == sel.account.priority) = some sel ∧
      d.account_id = sel.account.id ∧
      (∀ s ∈ c :: cs, s.account.priority ≤ sel.account.priority) := by
  unfold resolve at hr
  rw [hc] at hr
  simp only [pickSelected, hs] at hr
  injection hr with hpair
  have h1 := congrArg Prod.fst hpair
  simp only [] at h1
  refine ⟨maxByLast (fun s => s.account.priority) c cs, ?_, ?_, ?_⟩
  · exact maxByLast_rev_find (fun s => s.account.priority) c cs
  · rw [← h1]
  · exact maxByLast_ge (fun s => s.account.priority) c cs

/-- Counterexample for C6 as stated: two equal-priority candidates appear in
iteration order `[1, 2]`, yet the Priority strategy selects account 2, the
last — not the first — in iteration order. -/
theorem c6_priority_counterexample :
    (resolveCandidates (engineWith RoutingStrategy.priority
        [testAccount 1 0, testAccount 2 0]) gptCtx 0).map (fun s => s.account.id) = [1, 2] ∧
    (resolveCandidates (engineWith RoutingStrategy.priority
        [testAccount 1 0, testAccount 2 0]) gptCtx 0).map
      (fun s => s.account.priority) = [0, 0] ∧
    (resolve (engineWith RoutingStrategy.priority [testAccount 1 0, testAccount 2 0])
        gptCtx 0).toOption.map (fun p => p.1.account_id) = some 2 := by
  refine ⟨rfl, rfl, rfl⟩

/-- Witness for the amended C6 at the same two equal-priority accounts: the
selected account is 2, the last tying candidate. -/
theorem c6_priority_selection_witness :
    ∃ sel, ([statusOf (testAccount 1 0), statusOf (testAccount 2 0)].reverse).find?
        (fun s => s.account.priority == sel.account.priority) = some sel ∧
      (decisionFor (testAccount 2 0) (RoutingReason.priority 0)).account_id = sel.account.id ∧
      (∀ s ∈ [statusOf (testAccount 1 0), statusOf (testAccount 2 0)],
        s.account.priority ≤ sel.account.priority) :=
  c6_priority_selection
    (engineWith RoutingStrategy.priority [testAccount 1 0, testAccount 2 0])
    gptCtx 0 (statusOf (testAccount 1 0)) [statusOf (testAccount 2 0)]
    (decisionFor (testAccount 2 0) (RoutingReason.priority 0))
    (engineWith RoutingStrategy.priority [testAccount 1 0, testAccount 2 0])
    rfl rfl rfl

/-- C8: over-limit monotonicity — growing daily and monthly usage and a
shrinking (present-or-unbounded in the right direction) remaining budget
preserve the over-limit verdict. -/
theorem c8_over_limit_monotone (a : Account) (u v : UsageSnapshot)
    (hd : u.daily_usage ≤ v.daily_usage)
    (hm : u.monthly_usage ≤ v.monthly_usage)
    (hb : remainingBudgetLE v.remaining_budget u.remaining_budget)
    (h : u.is_over_limit a = true) : v.is_over_limit a = true := by
  unfold UsageSnapshot.is_over_limit at h ⊢
  simp only [Bool.or_eq_true] at h ⊢
  rcases h with (h1 | h2) | h3
  · left; left
    cases hdl : a.daily_limit with
    | none => rw [hdl] at h1; simp at h1
    | some dl =>
      rw [hdl] at h1
      simp only [decide_eq_true_eq] at h1 ⊢
      linarith
  · left; right
    cases hml : a.monthly_limit with
    | none => rw [hml] at h2; simp at h2
    | some ml =>
      rw [hml] at h2
      simp only [decide_eq_true_eq] at h2 ⊢
      linarith
  · right
    cases hur : u.remaining_budget with
    | none => rw [hur] at h3; simp at h3
    | some r =>
      rw [hur] at h3
      simp only [decide_eq_true_eq] at h3
      cases hvr : v.remaining_budget with
      | none =>
        exfalso
        unfold remainingBudgetLE at hb
        rw [hur, hvr] at hb
        exact hb
      | some r2 =>
        unfold remainingBudgetLE at hb
        rw [hur, hvr] at hb
        simp only [decide_eq_true_eq]
        linarith

/-- Witness for C8: an account with a ten-dollar daily cap is over-limit at
ten dollars of daily usage, hence still over-limit at eleven. -/
theorem c8_over_limit_monotone_witness :
    (snapDaily 11).is_over_limit capAccount = true :=
  c8_over_limit_monotone capAccount (snapDaily 10) (snapDaily 11)
    (by norm_num [snapDaily, UsageSnapshot.new])
    (by norm_num [snapDaily, UsageSnapshot.new])
    (by exact True.intro)
    (by decide)

/-- C9: the poller's next interval is the backoff formula
`min(min_interval + 2^min(n,5), max_interval)` with the default intervals of
60 and 3600 seconds. -/
theorem c9_poll_interval : ∀ n : Nat,
    UsagePoller.next_interval UsagePoller.new n = min (60 + 2 ^ (min n 5)) 3600 ∧
    UsagePoller.new.min_interval = 60 ∧
    UsagePoller.new.max_interval = 3600 := by
  intro n
  exact ⟨rfl, rfl, rfl⟩

/-- C10 (amended): an account absent from the usage map is paired by
`update_accounts` with a fresh zero snapshot (zero usage, no limits, no
remaining budget); its utilization ratio is zero, which is a lower bound of
every snapshot's ratio, so under LeastUtilized it always ties for the
minimum; and provided its daily and monthly caps, when set, are positive, it
is not over-limit and is marked available exactly when it is enabled with an
available circuit. -/
theorem c10_fresh_snapshot (e : RoutingEngine) (accounts : List Account)
    (usage_map : List (Nat × UsageSnapshot)) (now : ℚ) (a : Account)
    (ha : a ∈ accounts) (habs : assocFind usage_map a.id = none) :
    ∃ s, s ∈ (e.update_accounts accounts usage_map now).statuses ∧
      s.account = a ∧
      s.usage = UsageSnapshot.new a.id now ∧
      s.usage.utilization_ratio = 0 ∧
      (∀ u : UsageSnapshot, 0 ≤ u.utilization_ratio) ∧
      ((∀ dl, a.daily_limit = some dl → 0 < dl) →
       (∀ ml, a.monthly_limit = some ml → 0 < ml) →
       s.usage.is_over_limit s.account = false ∧
       s.is_available = (a.enabled && (lookupState e.health a.id).circuit.is_available)) := by
  refine ⟨mkStatus e.health a (UsageSnapshot.new a.id now), ?_, rfl, rfl, rfl, ?_, ?_⟩
  · exact List.mem_map.mpr ⟨a, ha, by rw [habs]; rfl⟩
  · intro u
    unfold UsageSnapshot.utilization_ratio
    cases u.hard_limit with
    | none => exact le_refl 0
    | some hard =>
      simp only []
      by_cases hpos : 0 < hard
      · rw [if_pos hpos]; exact le_max_left 0 _
      · rw [if_neg hpos]
  · intro hdl hml
    have hover : (UsageSnapshot.new a.id now).is_over_limit a = false := by
      unfold UsageSnapshot.is_over_limit
      simp only [Bool.or_eq_false_iff]
      refine ⟨⟨?_, ?_⟩, rfl⟩
      · cases hdl2 : a.daily_limit with
        | none => rfl
        | some dl =>
          have hpos := hdl dl hdl2
          simp only [UsageSnapshot.new, decide_eq_false_iff_not]
          exact not_le.mpr hpos
      · cases hml2 : a.monthly_limit with
        | none => rfl
        | some ml =>
          have hpos := hml ml hml2
          simp only [UsageSnapshot.new, decide_eq_false_iff_not]
          exact not_le.mpr hpos
    exact ⟨hover, by simp [mkStatus, hover]⟩

/-- Counterexample for C10 as stated: an enabled account with a zero daily
cap and no usage row gets the fresh zero snapshot yet is over-limit (its zero
daily usage already reaches the zero cap), so it is marked unavailable. -/
theorem c10_fresh_snapshot_counterexample :
    assocFind ([] : List (Nat × UsageSnapshot)) zeroCapAccount.id = none ∧
    zeroCapAccount.enabled = true ∧
    ((RoutingEngine.new RoutingStrategy.leastUtilized).update_accounts
        [zeroCapAccount] [] 0).statuses.map
      (fun s => s.usage.is_over_limit s.account) = [true] ∧
    ((RoutingEngine.new RoutingStrategy.leastUtilized).update_accounts
        [zeroCapAccount] [] 0).statuses.map (fun s => s.is_available) = [false] := by
  refine ⟨rfl, rfl, rfl, rfl⟩

/-- Witness for C10 at a fresh engine holding one unbounded account. -/
theorem c10_fresh_snapshot_witness :
    ∃ s, s ∈ ((RoutingEngine.new RoutingStrategy.leastUtilized).update_accounts
        [testAccount 1 0] [] 0).statuses ∧
      s.account = testAccount 1 0 ∧
      s.usage = UsageSnapshot.new 1 0 ∧
      s.usage.utilization_ratio = 0 ∧
      (∀ u : UsageSnapshot, 0 ≤ u.utilization_ratio) ∧
      ((∀ dl, (testAccount 1 0).daily_limit = some dl → 0 < dl) →
       (∀ ml, (testAccount 1 0).monthly_limit = some ml → 0 < ml) →
       s.usage.is_over_limit s.account = false ∧
       s.is_available = ((testAccount 1 0).enabled &&
         (lookupState (RoutingEngine.new RoutingStrategy.leastUtilized).health
           (testAccount 1 0).id).circuit.is_available)) :=
  c10_fresh_snapshot (RoutingEngine.new RoutingStrategy.leastUtilized)
    [testAccount 1 0] [] 0 (testAccount 1 0) (by decide) rfl

/-- C7 (amended): a 2xx non-streaming upstream response is relayed with its
body verbatim but with status 200 (which matches the upstream status only
when that status is 200), after reporting success; a non-2xx response is
relayed with status and body verbatim and reports an error whose fatality
holds exactly when the status is at least 500. -/
theorem c7_upstream_relay (account_id : Nat) (is_streaming : Bool) (status : Nat)
    (body : String) :
    (200 ≤ status → status < 300 → is_streaming = false →
      handleUpstreamResponse account_id is_streaming status body =
        (200, body, ReportAction.success account_id)) ∧
    (¬ (200 ≤ status ∧ status < 300) →
      handleUpstreamResponse account_id is_streaming status body =
        (status, body, ReportAction.error account_id (decide (500 ≤ status))) ∧
      (decide (500 ≤ status) = true ↔ 500 ≤ status)) := by
  constructor
  · intro h1 h2 h3
    subst h3
    unfold handleUpstreamResponse
    rw [if_neg (by simp [h1, h2])]
    rfl
  · intro h
    unfold handleUpstreamResponse
    rw [if_pos h]
    exact ⟨rfl, by simp⟩

/-- Counterexample for C7 as stated: an upstream 201 with a non-streaming
body comes back to the client as 200, not as the upstream status code. -/
theorem c7_upstream_relay_counterexample :
    handleUpstreamResponse 1 false 201 "created" =
      (200, "created", ReportAction.success 1) ∧
    (handleUpstreamResponse 1 false 201 "created").1 ≠ 201 := by
  refine ⟨rfl, by decide⟩

/-- Witness for the amended C7: a 204 relays its body with status 200 and a
503 relays verbatim with a fatal error report. -/
theorem c7_upstream_relay_witness :
    handleUpstreamResponse 2 false 204 "done" =
      (200, "done", ReportAction.success 2) ∧
    (handleUpstreamResponse 2 false 503 "err" =
      (503, "err", ReportAction.error 2 (decide (500 ≤ 503))) ∧
      (decide ((500 : Nat) ≤ 503) = true ↔ (500 : Nat) ≤ 503)) :=
  ⟨(c7_upstream_relay 2 false 204 "done").1 (by decide) (by decide) rfl,
   (c7_upstream_relay 2 false 503 "err").2 (by decide)⟩

/-- C5 (amended): when the first message content is a string, the context's
session id is the hex encoding of the first eight bytes of its digest; when
it is not, the context still carries a session id — the empty string, via
`unwrap_or_default` — and under Sticky such a context selects exactly the
least-utilized candidate and records a session mapping under the empty
string. -/
theorem c5_session_id (hash : String → List Nat) (body : Json) :
    (∀ content, firstMessageContent body = some content →
      (buildCtx hash body).session_id = some (hexOfBytes ((hash content).take 8))) ∧
    (firstMessageContent body = none → (buildCtx hash body).session_id = some "") ∧
    (∀ (e : RoutingEngine) (now : ℚ) (c : AccountStatus) (cs : List AccountStatus)
        (d : RoutingDecision) (e2 : RoutingEngine),
      e.strategy = RoutingStrategy.sticky →
      assocFind e.session_map "" = none →
      firstMessageContent body = none →
      resolveCandidates e (buildCtx hash body) now = c :: cs →
      resolve e (buildCtx hash body) now = Except.ok (d, e2) →
      d.account_id = (minByFirst utilOf c cs).account.id ∧
      assocFind e2.session_map "" = some d.account_id) := by
  refine ⟨?_, ?_, ?_⟩
  · intro content hcon
    simp [buildCtx, extractSessionId, hcon]
  · intro hnone
    simp [buildCtx, extractSessionId, hnone]
  · intro e now c cs d e2 hs hsm hnone hc hr
    have hsid : (buildCtx hash body).session_id = some "" := by
      simp [buildCtx, extractSessionId, hnone]
    unfold resolve at hr
    rw [hc] at hr
    simp only [pickSelected, hs] at hr
    rw [hsid] at hr
    simp only [selectSticky] at hr
    rw [hsm] at hr
    simp only [] at hr
    injection hr with hpair
    have h1 := congrArg Prod.fst hpair
    have h2 := congrArg Prod.snd hpair
    simp only [] at h1 h2
    have hid : d.account_id = (minByFirst utilOf c cs).account.id := by rw [← h1]
    refine ⟨hid, ?_⟩
    rw [← h2, hid]
    exact assocFind_upsert_self _ _ _

/-- Counterexample for C5 as stated: a body with no string first-message
content yields a context whose session id is present (the empty string), and
under Sticky the resolution records a session mapping for it. -/
theorem c5_session_id_counterexample :
    (buildCtx toyHash emptyBody).session_id ≠ none ∧
    (resolve stickyEngine (buildCtx toyHash emptyBody) 0).toOption.map
      (fun p => p.2.session_map) = some [("", 1)] := by
  constructor
  · have h : (buildCtx toyHash emptyBody).session_id = some "" := rfl
    rw [h]
    simp
  · rfl

/-- Witness for the amended C5: the hashed content case, the empty-content
case, and the sticky empty-session selection at a one-account engine. -/
theorem c5_session_id_witness :
    (buildCtx toyHash msgBody).session_id =
      some (hexOfBytes ((toyHash "hello").take 8)) ∧
    (buildCtx toyHash emptyBody).session_id = some "" ∧
    ((decisionFor (testAccount 1 0) (RoutingReason.sticky "")).account_id =
        (minByFirst utilOf (statusOf (testAccount 1 0)) []).account.id ∧
      assocFind ({ stickyEngine with session_map := [("", 1)] } :
          RoutingEngine).session_map "" =
        some (decisionFor (testAccount 1 0) (RoutingReason.sticky "")).account_id) :=
  ⟨(c5_session_id toyHash msgBody).1 "hello" rfl,
   (c5_session_id toyHash emptyBody).2.1 rfl,
   (c5_session_id toyHash emptyBody).2.2 stickyEngine 0 (statusOf (testAccount 1 0)) []
     (decisionFor (testAccount 1 0) (RoutingReason.sticky ""))
     { stickyEngine with session_map := [("", 1)] } rfl rfl rfl rfl rfl⟩

/-- C3 (amended): for every account and every AEAD cipher that inverts on
this account's credential with byte-valued output and a twelve-byte nonce,
saving then loading the account returns its exact credential; the on-disk
form of the credential is the base64 encoding of the nonce followed by the
AEAD output (ciphertext with its tag); and whenever the credential holds a
character outside the base64 output alphabet — as real `sk-` keys do with
their dash — the on-disk form does not contain the credential as a
substring. -/
theorem c3_encryption_roundtrip (store : Store) (a : Account)
    (enc : List Nat → String → List Nat) (dec : List Nat → List Nat → Option String)
    (nonce : List Nat)
    (hnonce : nonce.length = 12)
    (hbytes : ∀ b ∈ nonce ++ enc nonce a.api_key, b < 256)
    (hdec : dec nonce (enc nonce a.api_key) = some a.api_key) :
    (∃ acct, loadAccount (saveAccount store enc nonce a) dec a.id =
        Except.ok (some acct) ∧ acct.api_key = a.api_key) ∧
    ((assocFind (saveAccount store enc nonce a) a.id).map
        (fun r => r.api_key_encrypted) =
      some (String.mk (b64Encode (nonce ++ enc nonce a.api_key)))) ∧
    (∀ ch ∈ a.api_key.data, ch ∉ '=' :: b64Chars →
      subCheck a.api_key.data
        (String.mk (b64Encode (nonce ++ enc nonce a.api_key))).data = false) := by
  have hrow : assocFind (saveAccount store enc nonce a) a.id = some
      { label := a.label
        api_key_encrypted := encryptCredential enc nonce a.api_key
        org_id := a.org_id
        model_scope := a.model_scope
        daily_limit := a.daily_limit
        monthly_limit := a.monthly_limit
        priority := a.priority
        enabled := a.enabled
        created_at := a.created_at
        updated_at := a.updated_at
        last_used := a.last_used } := by
    unfold saveAccount
    exact assocFind_upsert_self store a.id _
  have hdecrypt : decryptCredential dec (encryptCredential enc nonce a.api_key) =
      some a.api_key := by
    unfold decryptCredential encryptCredential
    rw [show (String.mk (b64Encode (nonce ++ enc nonce a.api_key))).data =
      b64Encode (nonce ++ enc nonce a.api_key) from rfl]
    rw [b64_roundtrip _ hbytes]
    simp only []
    have hlen : ¬ ((nonce ++ enc nonce a.api_key).length < 12) := by
      rw [List.length_append, hnonce]
      omega
    rw [if_neg hlen]
    have htake : (nonce ++ enc nonce a.api_key).take 12 = nonce := by
      rw [← hnonce]
      exact List.take_left _ _
    have hdrop : (nonce ++ enc nonce a.api_key).drop 12 = enc nonce a.api_key := by
      rw [← hnonce]
      exact List.drop_left _ _
    rw [htake, hdrop, hdec]
  refine ⟨⟨{ id := a.id
             label := a.label
             api_key := a.api_key
             org_id := a.org_id
             model_scope := a.model_scope
             daily_limit := a.daily_limit
             monthly_limit := a.monthly_limit
             priority := a.priority
             enabled := a.enabled
             created_at := a.created_at
             updated_at := a.updated_at
             last_used := a.last_used }, ?_, rfl⟩, ?_, ?_⟩
  · unfold loadAccount
    rw [hrow]
    simp only []
    rw [hdecrypt]
  · rw [hrow]
    rfl
  · intro ch hchmem hchout
    refine subCheck_eq_false a.api_key.data _ ('=' :: b64Chars) ch hchmem hchout ?_
    intro x hx
    exact b64Encode_chars _ x hx

/-- Counterexample for C3 as stated: an account with an empty credential
string — the claim quantifies over every account — has an on-disk form that
trivially contains the credential as a substring. -/
theorem c3_encryption_counterexample :
    emptyKeyAccount.api_key = "" ∧
    (assocFind (saveAccount [] toyEnc toyNonce emptyKeyAccount)
        emptyKeyAccount.id).map
      (fun r => subCheck emptyKeyAccount.api_key.data r.api_key_encrypted.data) =
      some true := by
  refine ⟨rfl, rfl⟩

/-- Witness for the amended C3 at a dash-bearing credential and the toy AEAD:
the round-trip returns the credential and the stored form avoids it. -/
theorem c3_encryption_roundtrip_witness :
    (∃ acct, loadAccount (saveAccount [] toyEnc toyNonce dashKeyAccount) toyDec
        dashKeyAccount.id = Except.ok (some acct) ∧
      acct.api_key = dashKeyAccount.api_key) ∧
    subCheck dashKeyAccount.api_key.data
      (String.mk (b64Encode (toyNonce ++
        toyEnc toyNonce dashKeyAccount.api_key))).data = false :=
  ⟨(c3_encryption_roundtrip [] dashKeyAccount toyEnc toyDec toyNonce rfl
      (by decide) (by decide)).1,
   (c3_encryption_roundtrip [] dashKeyAccount toyEnc toyDec toyNonce rfl
      (by decide) (by decide)).2.2 '-' (by decide) (by decide)⟩
